import Mathlib

/-!
Verification of the AI-Talent-Matcher CV extraction core.

This file gives a shallow embedding, in Lean 4, of the algorithmic core of
the repository: the Python string primitives the code relies on
(`str.lower`, `str.strip`, `str.split(",")`, substring tests, `sorted`),
the skill/role reference store (`job_skill_db.py`), the role matcher
(`filter_job_positions_in_csv`), the skill-selection step of the extraction
orchestrator (`extraction_service.extract_cv_from_pdf`), the post-validation
list cleaning of the field extraction agents, the partial-update operation
(`storage_service.update_parsed_cv`), and the exception-dispatch structure of
the PDF text extractor (`pdf_extractor.extract_text_from_pdf`).

Python sets of strings are modelled as duplicate-free lists built by
insertion-order `setAdd`; set iteration order, which Python leaves
unspecified, corresponds to the order of the modelling list.
-/

namespace TalentMatcher

/-! ## Python string primitives -/

/-- Model of Python `str.lower()`: character-wise lowercasing. -/
def pyLower (s : String) : String := ⟨s.data.map Char.toLower⟩

/-- Strip leading and trailing whitespace from a character list,
as Python `str.strip()` does. -/
def stripChars (l : List Char) : List Char :=
  ((l.dropWhile Char.isWhitespace).reverse.dropWhile Char.isWhitespace).reverse

/-- Model of Python `str.strip()`. -/
def pyStrip (s : String) : String := ⟨stripChars s.data⟩

/-- Split a character list on the comma character, as Python
`str.split(",")` does (`[] ↦ [[]]`, empty fields kept). -/
def splitOnComma : List Char → List (List Char)
  | [] => [[]]
  | c :: rest =>
    if c = ',' then [] :: splitOnComma rest
    else
      match splitOnComma rest with
      | [] => [[c]]
      | g :: gs => (c :: g) :: gs

/-- Model of Python `s.split(",")`. -/
def pySplitComma (s : String) : List String := (splitOnComma s.data).map (⟨·⟩)

/-- Boolean test that the first list is an initial segment of the second. -/
def leadsChars : List Char → List Char → Bool
  | [], _ => true
  | _ :: _, [] => false
  | a :: as, b :: bs => a == b && leadsChars as bs

/-- Boolean test that `needle` occurs contiguously inside `hay`. -/
def containsChars (needle : List Char) : List Char → Bool
  | [] => leadsChars needle []
  | b :: rest => leadsChars needle (b :: rest) || containsChars needle rest

/-- Model of Python `needle in hay` on strings. -/
def pyInStr (needle hay : String) : Bool := containsChars needle.data hay.data

/-- Code-point lexicographic comparison of character lists, the order Python
uses to compare strings. -/
def charListLe : List Char → List Char → Bool
  | [], _ => true
  | _ :: _, [] => false
  | a :: as, b :: bs =>
    if a.toNat < b.toNat then true
    else if b.toNat < a.toNat then false
    else charListLe as bs

/-- Model of Python string `<=`: code-point lexicographic order. -/
def pyStrLe (s t : String) : Bool := charListLe s.data t.data

/-- Insert a string into a list so that a `pyStrLe`-sorted list stays sorted. -/
def insertSorted (a : String) : List String → List String
  | [] => [a]
  | b :: l => if pyStrLe a b then a :: b :: l else b :: insertSorted a l

/-- Model of Python `sorted` on string collections: insertion sort by
code-point lexicographic order. -/
def pySorted (l : List String) : List String := l.foldr insertSorted []

/-! ## Python sets of strings, modelled as duplicate-free lists -/

/-- Add an element to a modelled set (Python `set.add`): no-op when present. -/
def setAdd (s : List String) (x : String) : List String :=
  if x ∈ s then s else s ++ [x]

/-- Model of Python `set.update` / set union: fold `setAdd` over the right
operand. -/
def setUnion (s t : List String) : List String := t.foldl setAdd s

/-- Model of Python `set(l)`: deduplicate keeping first occurrences. -/
def setOfList (l : List String) : List String := setUnion [] l

/-! ## Basic lemmas about the primitives -/

theorem head?_dropWhile_false (p : Char → Bool) :
    ∀ (l : List Char) (a : Char), (l.dropWhile p).head? = some a → p a = false := by
  intro l
  induction l with
  | nil => intro a h; simp [List.dropWhile] at h
  | cons b l ih =>
    intro a h
    by_cases hb : p b
    · rw [List.dropWhile_cons_of_pos hb] at h
      exact ih a h
    · rw [List.dropWhile_cons_of_neg hb] at h
      simp at h
      rw [← h]
      exact Bool.eq_false_iff.mpr hb

theorem dropWhile_eq_self_of_head (p : Char → Bool) (l : List Char)
    (h : ∀ a, l.head? = some a → p a = false) : l.dropWhile p = l := by
  cases l with
  | nil => rfl
  | cons b l =>
    have hb : p b = false := h b rfl
    rw [List.dropWhile_cons_of_neg (by simp [hb])]

theorem dropWhile_dropWhile (p : Char → Bool) (l : List Char) :
    (l.dropWhile p).dropWhile p = l.dropWhile p :=
  dropWhile_eq_self_of_head p _ (fun a ha => head?_dropWhile_false p l a ha)

theorem getLast?_dropWhile (p : Char → Bool) :
    ∀ (l : List Char), l.dropWhile p ≠ [] → (l.dropWhile p).getLast? = l.getLast? := by
  intro l
  induction l with
  | nil => intro h; simp [List.dropWhile] at h
  | cons b l ih =>
    intro h
    by_cases hb : p b
    · rw [List.dropWhile_cons_of_pos hb] at h ⊢
      rw [ih h]
      have hl : l ≠ [] := by
        intro he; rw [he] at h; simp [List.dropWhile] at h
      cases l with
      | nil => exact absurd rfl hl
      | cons c l => simp [List.getLast?_cons_cons]
    · rw [List.dropWhile_cons_of_neg hb]

theorem stripChars_head (l : List Char) (a : Char)
    (h : (stripChars l).head? = some a) : Char.isWhitespace a = false := by
  unfold stripChars at h
  rw [List.head?_reverse] at h
  set m := (l.dropWhile Char.isWhitespace).reverse.dropWhile Char.isWhitespace with hm
  have hne : m ≠ [] := by
    intro he; rw [he] at h; simp at h
  rw [hm, getLast?_dropWhile _ _ (hm ▸ hne), List.getLast?_reverse] at h
  exact head?_dropWhile_false _ _ _ h

theorem stripChars_getLast (l : List Char) (a : Char)
    (h : (stripChars l).getLast? = some a) : Char.isWhitespace a = false := by
  unfold stripChars at h
  rw [List.getLast?_reverse] at h
  exact head?_dropWhile_false _ _ _ h

theorem stripChars_of_clean (l : List Char)
    (h1 : ∀ a, l.head? = some a → Char.isWhitespace a = false)
    (h2 : ∀ a, l.getLast? = some a → Char.isWhitespace a = false) :
    stripChars l = l := by
  unfold stripChars
  rw [dropWhile_eq_self_of_head _ _ h1]
  rw [dropWhile_eq_self_of_head _ _ (fun a ha => h2 a (by rwa [List.head?_reverse] at ha))]
  exact List.reverse_reverse l

theorem stripChars_idem (l : List Char) : stripChars (stripChars l) = stripChars l :=
  stripChars_of_clean _ (stripChars_head l) (stripChars_getLast l)

theorem pyStrip_idem (s : String) : pyStrip (pyStrip s) = pyStrip s := by
  unfold pyStrip
  exact congrArg String.mk (stripChars_idem s.data)

theorem pyStrip_data (s : String) : (pyStrip s).data = stripChars s.data := rfl

/-! ## Field extraction agents: post-validation list cleaning

From `agents/cv_extraction/experience_agent.py` (`clean_responsibilities`)
and `agents/cv_extraction/education_agent.py` (`clean_lists`): the raw list
may hold arbitrary JSON values; non-strings, nulls and blank strings are
dropped and surviving strings are stripped. -/

/-- A JSON list entry as seen by the validators: a string, or any
non-string value (null, number, object...). -/
inductive JVal where
  | strv (s : String)
  | nonstr
deriving DecidableEq

/-- The comprehension filter `isinstance(r, str) and r.strip()`. -/
def isCleanKept : JVal → Bool
  | .strv s => pyStrip s != ""
  | .nonstr => false

/-- The comprehension body `r.strip()`. -/
def cleanEntry : JVal → JVal
  | .strv s => .strv (pyStrip s)
  | .nonstr => .nonstr

/-- `ExperienceItem.clean_responsibilities`: `if not v: return [];
return [r.strip() for r in v if isinstance(r, str) and r.strip()]`. -/
def clean_responsibilities (v : List JVal) : List JVal :=
  if v = [] then [] else (v.filter isCleanKept).map cleanEntry

/-- `EducationItem.clean_lists`: same body as `clean_responsibilities`. -/
def clean_lists (v : List JVal) : List JVal :=
  if v = [] then [] else (v.filter isCleanKept).map cleanEntry

theorem clean_responsibilities_idem (v : List JVal) :
    clean_responsibilities (clean_responsibilities v) = clean_responsibilities v := by
  unfold clean_responsibilities
  by_cases hv : v = []
  · simp [hv]
  · rw [if_neg hv]
    set w := (v.filter isCleanKept).map cleanEntry with hw
    by_cases hwnil : w = []
    · simp [hwnil]
    · rw [if_neg hwnil]
      have hmem : ∀ x ∈ w, ∃ s : String, x = .strv (pyStrip s) ∧ pyStrip s ≠ "" := by
        intro x hx
        rw [hw, List.mem_map] at hx
        obtain ⟨y, hy, hyx⟩ := hx
        rw [List.mem_filter] at hy
        obtain ⟨-, hyk⟩ := hy
        cases y with
        | strv s =>
          refine ⟨s, ?_, ?_⟩
          · rw [← hyx]; rfl
          · simpa [isCleanKept] using hyk
        | nonstr => simp [isCleanKept] at hyk
      have hfilter : w.filter isCleanKept = w := by
        apply List.filter_eq_self.mpr
        intro x hx
        obtain ⟨s, hxs, hs⟩ := hmem x hx
        rw [hxs]
        simp [isCleanKept, pyStrip_idem s, hs]
      rw [hfilter]
      have hmap : w.map cleanEntry = w.map id := by
        apply List.map_congr_left
        intro x hx
        obtain ⟨s, hxs, -⟩ := hmem x hx
        rw [hxs]
        simp [cleanEntry, pyStrip_idem s]
      rw [hmap, List.map_id]

/-- C9: Idempotence of list cleaning — applying the post-validation clean
step (drop null/blank/non-string entries, trim whitespace on survivors)
twice yields the same result as applying it once, for both the
experience-agent validator and the education-agent validator. -/
theorem clean_step_idempotent (v : List JVal) :
    clean_responsibilities (clean_responsibilities v) = clean_responsibilities v ∧
    clean_lists (clean_lists v) = clean_lists v := by
  refine ⟨clean_responsibilities_idem v, ?_⟩
  have h : clean_lists = clean_responsibilities := rfl
  rw [h]
  exact clean_responsibilities_idem v

/-! ## Role matcher: `job_skill_db.filter_job_positions_in_csv`

The source iterates over the input `job_positions`; for each, it scans the
set of available titles and, at the first title whose lowercase form equals
the lowercased-and-stripped position, appends it (if not already matched)
and breaks. `available_titles` models an enumeration of the Python set
returned by `get_all_job_titles()` in its iteration order. -/

/-- The inner `for title in available_titles: ... break` loop: first title
whose `title.lower()` equals the prepared position. -/
def find_title (p : String) : List String → Option String
  | [] => none
  | t :: ts => if p = pyLower t then some t else find_title p ts

/-- The outer loop over `job_positions`, accumulating `matched_titles`. -/
def filter_go (titles : List String) (matched : List String) : List String → List String
  | [] => matched
  | pos :: rest =>
    match find_title (pyStrip (pyLower pos)) titles with
    | some t =>
      if t ∈ matched then filter_go titles matched rest
      else filter_go titles (matched ++ [t]) rest
    | none => filter_go titles matched rest

/-- `filter_job_positions_in_csv`: only exact (case-insensitive,
whitespace-trimmed) matches, deduplicated. -/
def filter_job_positions_in_csv (job_positions available_titles : List String) :
    List String :=
  filter_go available_titles [] job_positions

/-- Deduplication keeping the first occurrence of each string (the order in
which Python's `matched_titles` list accumulates first matches). -/
def dedupFirst : List String → List String
  | [] => []
  | a :: l => a :: dedupFirst (l.filter (fun b => b != a))
termination_by l => l.length
decreasing_by
  simp only [List.length_cons]
  exact Nat.lt_succ_of_le (List.length_filter_le _ _)

theorem dedupFirst_cons (a : String) (l : List String) :
    dedupFirst (a :: l) = a :: dedupFirst (l.filter (fun b => b != a)) := by
  rw [dedupFirst.eq_def]

theorem mem_dedupFirst : ∀ (l : List String) (a : String), a ∈ dedupFirst l ↔ a ∈ l := by
  intro l
  induction l using dedupFirst.induct with
  | case1 => intro a; simp [dedupFirst]
  | case2 b l ih =>
    intro a
    rw [dedupFirst]
    simp only [List.mem_cons, ih, List.mem_filter]
    constructor
    · rintro (h | ⟨h, -⟩)
      · exact Or.inl h
      · exact Or.inr h
    · rintro (h | h)
      · exact Or.inl h
      · by_cases hab : a = b
        · exact Or.inl hab
        · exact Or.inr ⟨h, by simp [hab]⟩

theorem nodup_dedupFirst : ∀ (l : List String), (dedupFirst l).Nodup := by
  intro l
  induction l using dedupFirst.induct with
  | case1 => simp [dedupFirst]
  | case2 b l ih =>
    rw [dedupFirst]
    refine List.nodup_cons.mpr ⟨?_, ih⟩
    intro hmem
    rw [mem_dedupFirst, List.mem_filter] at hmem
    simp at hmem

theorem filter_go_eq (titles : List String) :
    ∀ (ps acc : List String),
      filter_go titles acc ps =
        acc ++ dedupFirst (((ps.filterMap
          (fun p => find_title (pyStrip (pyLower p)) titles))).filter
            (fun t => decide (t ∉ acc))) := by
  intro ps
  induction ps with
  | nil => intro acc; simp [filter_go, dedupFirst]
  | cons pos rest ih =>
    intro acc
    cases hf : find_title (pyStrip (pyLower pos)) titles with
    | none =>
      rw [filter_go, hf]
      dsimp only
      rw [ih acc]
      simp [hf]
    | some t =>
      rw [filter_go, hf]
      dsimp only
      by_cases ht : t ∈ acc
      · rw [if_pos ht, ih acc]
        have hpt : decide (t ∉ acc) = false := by simpa using ht
        simp only [List.filterMap_cons, hf, List.filter_cons, hpt]
        simp
      · rw [if_neg ht, ih (acc ++ [t])]
        have hpt : decide (t ∉ acc) = true := by simpa using ht
        simp only [List.filterMap_cons, hf]
        rw [List.filter_cons_of_pos (p := fun u => decide (u ∉ acc)) hpt]
        have hfe : (List.filterMap (fun p => find_title (pyStrip (pyLower p)) titles)
              rest).filter (fun u => decide (u ∉ acc ++ [t])) =
            ((List.filterMap (fun p => find_title (pyStrip (pyLower p)) titles)
              rest).filter (fun u => decide (u ∉ acc))).filter (fun b => b != t) := by
          rw [List.filter_filter]
          apply List.filter_congr
          intro b _
          by_cases hb1 : b = t
          · simp [hb1]
          · by_cases hb2 : b ∈ acc <;> simp [hb1, hb2]
        rw [dedupFirst_cons, hfe, List.append_assoc, List.singleton_append]

theorem find_title_eq_some (q : String) (titles : List String)
    (hnorm : ∀ t ∈ titles, pyLower t = t) (t : String) :
    find_title q titles = some t ↔ t ∈ titles ∧ q = t := by
  induction titles with
  | nil => simp [find_title]
  | cons t0 ts ih =>
    have ht0 : pyLower t0 = t0 := hnorm t0 (by simp)
    have ihs := ih (fun u hu => hnorm u (by simp [hu]))
    rw [find_title, ht0]
    by_cases hq : q = t0
    · rw [if_pos hq]
      simp only [Option.some.injEq, List.mem_cons]
      constructor
      · intro h
        subst h
        exact ⟨Or.inl rfl, hq⟩
      · rintro ⟨-, rfl⟩
        rw [hq]
    · rw [if_neg hq, ihs]
      simp only [List.mem_cons]
      constructor
      · rintro ⟨h, rfl⟩
        exact ⟨Or.inr h, rfl⟩
      · rintro ⟨h | h, rfl⟩
        · exact absurd h hq
        · exact ⟨h, rfl⟩

theorem filter_notMemNil (l : List String) :
    l.filter (fun u => decide (u ∉ ([] : List String))) = l :=
  List.filter_eq_self.mpr (fun a _ => by simp)

/-- C2: Exact-match only — a canonical title is returned by the role
matcher if and only if some input role equals it after trimming and
case-folding; substring containment alone never matches. The hypothesis
states that the available titles are normalized (lowercase), which
`load_all_job_skill_dbs` guarantees for every title of the store. -/
theorem filter_job_positions_exact_match_iff
    (job_positions available_titles : List String)
    (hnorm : ∀ t ∈ available_titles, pyLower t = t) (t : String) :
    t ∈ filter_job_positions_in_csv job_positions available_titles ↔
      t ∈ available_titles ∧ ∃ p ∈ job_positions, pyStrip (pyLower p) = t := by
  unfold filter_job_positions_in_csv
  rw [filter_go_eq, filter_notMemNil, List.nil_append, mem_dedupFirst,
    List.mem_filterMap]
  constructor
  · rintro ⟨p, hp, hfind⟩
    rw [find_title_eq_some _ _ hnorm] at hfind
    exact ⟨hfind.1, p, hp, hfind.2⟩
  · rintro ⟨htl, p, hp, hpt⟩
    refine ⟨p, hp, ?_⟩
    rw [find_title_eq_some _ _ hnorm]
    exact ⟨htl, hpt⟩

/-- Witness for C2: with canonical title `"data engineer"`, the input role
`"Senior Data Engineer"` does not match (substring only), while
`"  DATA Engineer "` does. -/
theorem filter_job_positions_exact_match_iff_witness :
    ("data engineer" ∈ filter_job_positions_in_csv ["Senior Data Engineer"]
        ["data engineer"] ↔
      "data engineer" ∈ ["data engineer"] ∧
        ∃ p ∈ ["Senior Data Engineer"], pyStrip (pyLower p) = "data engineer") ∧
    "data engineer" ∉ filter_job_positions_in_csv ["Senior Data Engineer"]
        ["data engineer"] ∧
    "data engineer" ∈ filter_job_positions_in_csv ["  DATA Engineer "]
        ["data engineer"] :=
  ⟨filter_job_positions_exact_match_iff ["Senior Data Engineer"] ["data engineer"]
      (by decide) "data engineer",
    by decide, by decide⟩

/-- C3 counterexample: with store iteration order `["a title", "b title"]`
and input roles `["b title", "a title"]`, the matcher returns
`["b title", "a title"]`, which does not preserve the store's
canonical-title ordering (it is not a sublist of the store enumeration). -/
theorem filter_job_positions_order_counterexample :
    filter_job_positions_in_csv ["b title", "a title"] ["a title", "b title"] =
      ["b title", "a title"] ∧
    ¬ List.Sublist (filter_job_positions_in_csv ["b title", "a title"]
        ["a title", "b title"]) ["a title", "b title"] := by
  constructor
  · decide
  · decide

/-- C3 (amended): the matcher's output lists, in input order, the first
matching canonical title of each input role, deduplicated keeping first
occurrences — so the output order follows the input roles, not the
reference store's iteration — and no canonical title appears twice. -/
theorem filter_job_positions_order_amended (job_positions available_titles : List String) :
    filter_job_positions_in_csv job_positions available_titles =
      dedupFirst (job_positions.filterMap
        (fun p => find_title (pyStrip (pyLower p)) available_titles)) ∧
    (filter_job_positions_in_csv job_positions available_titles).Nodup := by
  constructor
  · unfold filter_job_positions_in_csv
    rw [filter_go_eq, filter_notMemNil, List.nil_append]
  · unfold filter_job_positions_in_csv
    rw [filter_go_eq, filter_notMemNil, List.nil_append]
    exact nodup_dedupFirst _

/-! ## Skill/role reference store: `job_skill_db.py`

A reference source is one parsed CSV, a list of `(job_title, skills)` rows;
the two required columns are part of the row structure, so the
column-normalization schema check of the source is structurally satisfied
here. `load_all_job_skill_dbs` normalizes every value to trimmed lowercase
and concatenates all sources; it raises when no source file is found. -/

/-- One row of a `*_job_roles_skills.csv` reference table. -/
structure SkillRow where
  job_title : String
  skills : String
deriving DecidableEq

/-- Value normalization of `load_all_job_skill_dbs`:
`str.lower().str.strip()` on both columns. -/
def normalizeRow (r : SkillRow) : SkillRow :=
  { job_title := pyStrip (pyLower r.job_title), skills := pyStrip (pyLower r.skills) }

/-- `load_all_job_skill_dbs`: normalize each source and concatenate
(`pd.concat`); error when zero sources are found. -/
def load_all_job_skill_dbs (sources : List (List SkillRow)) :
    Except String (List SkillRow) :=
  if sources = [] then
    .error "No job_roles_skills.csv files found in data/"
  else
    .ok ((sources.map (fun src => src.map normalizeRow)).flatten)

/-- The skill tokens one row contributes in `get_skills_for_job`:
`s.strip() for s in row.skills.split(",") if s.strip()`. -/
def rowTokens (r : SkillRow) : List String :=
  ((pySplitComma r.skills).map pyStrip).filter (fun u => u != "")

/-- `get_skills_for_job`: reload the store, lowercase-and-strip the query,
keep exactly-matching rows, and collect their comma-split tokens as a set. -/
def get_skills_for_job (sources : List (List SkillRow)) (job_role : String) :
    Except String (List String) :=
  match load_all_job_skill_dbs sources with
  | .error e => .error e
  | .ok df =>
    let q := pyStrip (pyLower job_role)
    .ok ((df.filter (fun r => r.job_title == q)).foldl
      (fun skills r => setUnion skills (rowTokens r)) [])

/-- `get_all_job_titles`: the set of distinct normalized titles. -/
def get_all_job_titles (sources : List (List SkillRow)) :
    Except String (List String) :=
  match load_all_job_skill_dbs sources with
  | .error e => .error e
  | .ok df => .ok (setOfList (df.map (·.job_title)))

/-- `get_all_skills`: the set of all skill tokens across all rows. -/
def get_all_skills (sources : List (List SkillRow)) :
    Except String (List String) :=
  match load_all_job_skill_dbs sources with
  | .error e => .error e
  | .ok df => .ok (df.foldl (fun acc r => setUnion acc (rowTokens r)) [])

/-- `get_skills_for_job_positions`: union of `get_skills_for_job` over the
given positions. -/
def get_skills_for_job_positions (sources : List (List SkillRow))
    (job_positions : List String) : Except String (List String) :=
  job_positions.foldlM (fun acc pos =>
    match get_skills_for_job sources pos with
    | .error e => .error e
    | .ok skills => .ok (setUnion acc skills)) []

theorem mem_setAdd (s : List String) (y x : String) :
    x ∈ setAdd s y ↔ x ∈ s ∨ x = y := by
  unfold setAdd
  by_cases hy : y ∈ s
  · rw [if_pos hy]
    constructor
    · exact Or.inl
    · rintro (h | rfl)
      · exact h
      · exact hy
  · rw [if_neg hy]
    simp

theorem mem_setUnion (t : List String) :
    ∀ (s : List String) (x : String), x ∈ setUnion s t ↔ x ∈ s ∨ x ∈ t := by
  induction t with
  | nil => intro s x; simp [setUnion]
  | cons a t ih =>
    intro s x
    unfold setUnion at ih ⊢
    rw [List.foldl_cons, ih (setAdd s a), mem_setAdd]
    simp only [List.mem_cons]
    tauto

theorem mem_setOfList (l : List String) (x : String) :
    x ∈ setOfList l ↔ x ∈ l := by
  unfold setOfList
  rw [mem_setUnion]
  simp

theorem mem_foldl_setUnion (f : SkillRow → List String) :
    ∀ (rows : List SkillRow) (acc : List String) (x : String),
      x ∈ rows.foldl (fun sk r => setUnion sk (f r)) acc ↔
        x ∈ acc ∨ ∃ r ∈ rows, x ∈ f r := by
  intro rows
  induction rows with
  | nil => intro acc x; simp
  | cons r0 rows ih =>
    intro acc x
    rw [List.foldl_cons, ih (setUnion acc (f r0)), mem_setUnion]
    simp only [List.mem_cons]
    constructor
    · rintro ((h | h) | ⟨r, hr, hx⟩)
      · exact Or.inl h
      · exact Or.inr ⟨r0, Or.inl rfl, h⟩
      · exact Or.inr ⟨r, Or.inr hr, hx⟩
    · rintro (h | ⟨r, (rfl | hr), hx⟩)
      · exact Or.inl (Or.inl h)
      · exact Or.inl (Or.inr hx)
      · exact Or.inr ⟨r, hr, hx⟩

/-- C6: Reference merge union — for a normalized job title, the lookup
returns exactly the union, over all rows of all loaded sources whose
normalized `job_title` equals the queried title, of the rows' parsed skill
tokens (comma-split, trimmed, empty tokens dropped). -/
theorem get_skills_for_job_union
    (sources : List (List SkillRow)) (hs : sources ≠ [])
    (t : String) (ht : pyStrip (pyLower t) = t) (s : String) :
    ∃ S, get_skills_for_job sources t = .ok S ∧
      (s ∈ S ↔ ∃ src ∈ sources, ∃ row ∈ src,
        pyStrip (pyLower row.job_title) = t ∧ s ∈ rowTokens (normalizeRow row)) := by
  unfold get_skills_for_job load_all_job_skill_dbs
  rw [if_neg hs]
  dsimp only
  refine ⟨_, rfl, ?_⟩
  rw [mem_foldl_setUnion]
  simp only [List.not_mem_nil, false_or]
  rw [ht]
  constructor
  · rintro ⟨r, hr, htok⟩
    rw [List.mem_filter] at hr
    obtain ⟨hrdf, hq⟩ := hr
    rw [List.mem_flatten] at hrdf
    obtain ⟨l, hl, hrl⟩ := hrdf
    rw [List.mem_map] at hl
    obtain ⟨src, hsrc, rfl⟩ := hl
    rw [List.mem_map] at hrl
    obtain ⟨row, hrow, rfl⟩ := hrl
    refine ⟨src, hsrc, row, hrow, ?_, htok⟩
    simpa [normalizeRow] using hq
  · rintro ⟨src, hsrc, row, hrow, hqt, htok⟩
    refine ⟨normalizeRow row, ?_, htok⟩
    rw [List.mem_filter]
    refine ⟨?_, ?_⟩
    · rw [List.mem_flatten]
      exact ⟨src.map normalizeRow, List.mem_map_of_mem _ hsrc,
        List.mem_map_of_mem _ hrow⟩
    · simp [normalizeRow, hqt]

/-- Witness for C6: with one source row
`("Backend Engineer", "python, sql")` and another source row
`("Backend Engineer", "docker")`, the lookup for the normalized title
`"backend engineer"` yields exactly the set `{python, sql, docker}`. -/
theorem get_skills_for_job_union_witness :
    get_skills_for_job
        [[⟨"Backend Engineer", "python, sql"⟩], [⟨"Backend Engineer", "docker"⟩]]
        "backend engineer" = .ok ["python", "sql", "docker"] ∧
    (∃ S, get_skills_for_job
        [[⟨"Backend Engineer", "python, sql"⟩], [⟨"Backend Engineer", "docker"⟩]]
        "backend engineer" = .ok S ∧
      ("docker" ∈ S ↔ ∃ src ∈
          [[(⟨"Backend Engineer", "python, sql"⟩ : SkillRow)],
            [⟨"Backend Engineer", "docker"⟩]], ∃ row ∈ src,
        pyStrip (pyLower row.job_title) = "backend engineer" ∧
          "docker" ∈ rowTokens (normalizeRow row))) :=
  ⟨by rfl,
    get_skills_for_job_union
      [[⟨"Backend Engineer", "python, sql"⟩], [⟨"Backend Engineer", "docker"⟩]]
      (by decide) "backend engineer" (by decide) "docker"⟩

/-! ## Order lemmas for the sorting primitive -/

theorem charListLe_total : ∀ (x y : List Char),
    charListLe x y = true ∨ charListLe y x = true := by
  intro x
  induction x with
  | nil => intro y; left; rfl
  | cons a as ih =>
    intro y
    cases y with
    | nil => right; rfl
    | cons b bs =>
      rw [charListLe, charListLe]
      by_cases h1 : a.toNat < b.toNat
      · left; rw [if_pos h1]
      · by_cases h2 : b.toNat < a.toNat
        · right; rw [if_pos h2]
        · rw [if_neg h1, if_neg h2, if_neg h2, if_neg h1]
          exact ih bs

theorem charListLe_trans : ∀ (x y z : List Char),
    charListLe x y = true → charListLe y z = true → charListLe x z = true := by
  intro x
  induction x with
  | nil => intro y z _ _; rfl
  | cons a as ih =>
    intro y z hxy hyz
    cases y with
    | nil => rw [charListLe] at hxy; exact absurd hxy (by simp)
    | cons b bs =>
      cases z with
      | nil => rw [charListLe] at hyz; exact absurd hyz (by simp)
      | cons c cs =>
        rw [charListLe] at hxy hyz ⊢
        split_ifs at hxy hyz ⊢ <;>
          first
          | rfl
          | exact absurd hxy Bool.false_ne_true
          | exact absurd hyz Bool.false_ne_true
          | exact ih bs cs hxy hyz
          | (exfalso; omega)

theorem mem_insertSorted (a x : String) :
    ∀ (l : List String), x ∈ insertSorted a l ↔ x = a ∨ x ∈ l := by
  intro l
  induction l with
  | nil => simp [insertSorted]
  | cons b t ih =>
    rw [insertSorted]
    by_cases hab : pyStrLe a b = true
    · rw [if_pos hab]; simp
    · rw [if_neg hab]
      simp only [List.mem_cons, ih]
      tauto

theorem sorted_insertSorted (a : String) :
    ∀ (l : List String), List.Sorted (fun x y => pyStrLe x y = true) l →
      List.Sorted (fun x y => pyStrLe x y = true) (insertSorted a l) := by
  intro l
  induction l with
  | nil => intro _; simp [insertSorted]
  | cons b t ih =>
    intro hs
    rw [List.sorted_cons] at hs
    obtain ⟨hb, ht⟩ := hs
    rw [insertSorted]
    by_cases hab : pyStrLe a b = true
    · rw [if_pos hab, List.sorted_cons]
      refine ⟨?_, List.sorted_cons.mpr ⟨hb, ht⟩⟩
      intro x hx
      rcases List.mem_cons.mp hx with rfl | hx
      · exact hab
      · exact charListLe_trans _ _ _ hab (hb x hx)
    · rw [if_neg hab, List.sorted_cons]
      refine ⟨?_, ih ht⟩
      intro x hx
      rcases (mem_insertSorted a x t).mp hx with hxa | hx
      · rw [hxa]
        rcases charListLe_total a.data b.data with h | h
        · exact absurd h hab
        · exact h
      · exact hb x hx

theorem sorted_pySorted (l : List String) :
    List.Sorted (fun x y => pyStrLe x y = true) (pySorted l) := by
  unfold pySorted
  induction l with
  | nil => simp
  | cons a t ih => rw [List.foldr_cons]; exact sorted_insertSorted a _ ih

/-! ## Extraction orchestrator: skills analysis assembly

From `extraction_service.extract_cv_from_pdf`. The LLM-driven collaborators
and the `ner_filter` module (not among the repository's source files here)
are abstract parameters: the statements hold for every behavior of
`match_roles_to_csv_titles` and `extract_explicit_skills`, and for any
reference-store contents. -/

/-- `MAX_SKILLS = 20` from `extraction_service.py`. -/
def MAX_SKILLS : Nat := 20

/-- One entry of the experience section, as the orchestrator consumes it
(`exp.get("role")` etc.). -/
structure ExperienceItem where
  company : Option String
  role : Option String
  responsibilities : List String
  start_date : Option String
  end_date : Option String
deriving DecidableEq

/-- The `SkillsAnalysis` model from `ner_skill_matcher/models.py`. -/
structure SkillsAnalysis where
  explicit_skills : List String
  related_roles : List String
  job_related_skills : List String
deriving DecidableEq

/-- The skill-limiting step of `extract_cv_from_pdf` (lines 72–76): the
source branches on `len(matched_roles) <= 2`, and both branches compute
`sorted(all_role_skills)[:MAX_SKILLS]`. -/
def limit_job_skills (matched_roles all_role_skills : List String) : List String :=
  if matched_roles.length ≤ 2 then (pySorted all_role_skills).take MAX_SKILLS
  else (pySorted all_role_skills).take MAX_SKILLS

/-- Modelled from the spec: the single truncation policy as §4.5 words it —
sort lexicographically ascending, truncate to the first `MAX_SKILLS` —
regardless of how many roles matched. -/
def limit_job_skills_single_policy (all_role_skills : List String) : List String :=
  (pySorted all_role_skills).take MAX_SKILLS

/-- The skills-analysis assembly of `extract_cv_from_pdf` (lines 51–87):
collect non-empty roles from the experience entries; when there are any,
match them against the store titles; when any matched, limit the union of
their skills and scan for explicit skills, truncating both to
`MAX_SKILLS`. -/
def extract_cv_skills_analysis
    (match_roles_to_csv_titles : List String → List String → List String)
    (extract_explicit_skills : String → List String → List String)
    (csv_titles : List String)
    (skills_for_positions : List String → List String)
    (all_csv_skills : List String)
    (cv_text : String)
    (experiences : List ExperienceItem) : SkillsAnalysis :=
  let experience_roles := experiences.filterMap (fun exp =>
    match exp.role with
    | some r => if r = "" then none else some r
    | none => none)
  if experience_roles = [] then
    { explicit_skills := [], related_roles := [], job_related_skills := [] }
  else
    let matched_roles := match_roles_to_csv_titles experience_roles csv_titles
    if matched_roles = [] then
      { explicit_skills := [], related_roles := matched_roles, job_related_skills := [] }
    else
      let all_role_skills := skills_for_positions matched_roles
      let job_skills := limit_job_skills matched_roles all_role_skills
      let explicit_skills := (extract_explicit_skills cv_text all_csv_skills).take MAX_SKILLS
      { explicit_skills := explicit_skills, related_roles := matched_roles,
        job_related_skills := job_skills }

/-- C1: Skill cap invariant — whatever the reference data, collaborator
behavior and input, the assembled skills analysis satisfies
`len(job_related_skills) ≤ 20` and `len(explicit_skills) ≤ 20`. -/
theorem extract_cv_skills_cap
    (m : List String → List String → List String)
    (e : String → List String → List String)
    (ct : List String) (sp : List String → List String) (acs : List String)
    (text : String) (exps : List ExperienceItem) :
    (extract_cv_skills_analysis m e ct sp acs text exps).job_related_skills.length ≤
        MAX_SKILLS ∧
    (extract_cv_skills_analysis m e ct sp acs text exps).explicit_skills.length ≤
        MAX_SKILLS := by
  unfold extract_cv_skills_analysis limit_job_skills
  dsimp only
  constructor
  · split
    · simp [MAX_SKILLS]
    · split
      · simp [MAX_SKILLS]
      · split
        · exact List.length_take_le _ _
        · exact List.length_take_le _ _
  · split
    · simp [MAX_SKILLS]
    · split
      · simp [MAX_SKILLS]
      · exact List.length_take_le _ _

/-- C4: No-role implies empty skills — when the matched `related_roles`
list is empty (in particular when no experience entry has a non-empty
role), both `job_related_skills` and `explicit_skills` are empty. -/
theorem extract_cv_skills_no_role_empty
    (m : List String → List String → List String)
    (e : String → List String → List String)
    (ct : List String) (sp : List String → List String) (acs : List String)
    (text : String) (exps : List ExperienceItem)
    (h : (extract_cv_skills_analysis m e ct sp acs text exps).related_roles = []) :
    (extract_cv_skills_analysis m e ct sp acs text exps).job_related_skills = [] ∧
    (extract_cv_skills_analysis m e ct sp acs text exps).explicit_skills = [] := by
  revert h
  unfold extract_cv_skills_analysis
  dsimp only
  split
  · intro _; exact ⟨rfl, rfl⟩
  · split
    · intro _; exact ⟨rfl, rfl⟩
    · intro h
      rename_i hne
      exact absurd h hne

/-- Witness for C4: with no experience entries, the analysis has no related
roles and both skill lists are empty. -/
theorem extract_cv_skills_no_role_empty_witness :
    (extract_cv_skills_analysis (fun _ _ => []) (fun _ _ => []) []
        (fun _ => []) [] "" []).related_roles = [] ∧
    ((extract_cv_skills_analysis (fun _ _ => []) (fun _ _ => []) []
        (fun _ => []) [] "" []).job_related_skills = [] ∧
      (extract_cv_skills_analysis (fun _ _ => []) (fun _ _ => []) []
        (fun _ => []) [] "" []).explicit_skills = []) :=
  ⟨rfl, extract_cv_skills_no_role_empty (fun _ _ => []) (fun _ _ => []) []
    (fun _ => []) [] "" [] rfl⟩

/-- C5: Single truncation policy — for a non-empty list of matched roles,
the two branches of the skill-limiting step compute the identical result,
the sorted-then-truncated list the spec describes, so it coincides with the
single policy; and the resulting `job_related_skills` is lexicographically
ascending in every case. -/
theorem limit_job_skills_single_policy_eq
    (matched_roles all_role_skills : List String) (h : matched_roles ≠ []) :
    limit_job_skills matched_roles all_role_skills =
      limit_job_skills_single_policy all_role_skills ∧
    List.Sorted (fun x y => pyStrLe x y = true)
      (limit_job_skills matched_roles all_role_skills) ∧
    ∀ (m : List String → List String → List String)
      (e : String → List String → List String)
      (ct : List String) (sp : List String → List String) (acs : List String)
      (text : String) (exps : List ExperienceItem),
      List.Sorted (fun x y => pyStrLe x y = true)
        (extract_cv_skills_analysis m e ct sp acs text exps).job_related_skills := by
  refine ⟨?_, ?_, ?_⟩
  · unfold limit_job_skills limit_job_skills_single_policy
    split <;> rfl
  · unfold limit_job_skills
    split <;> exact (sorted_pySorted _).sublist (List.take_sublist _ _)
  · intro m e ct sp acs text exps
    unfold extract_cv_skills_analysis limit_job_skills
    dsimp only
    split
    · simp
    · split
      · simp
      · split <;> exact (sorted_pySorted _).sublist (List.take_sublist _ _)

/-- Witness for C5: a concrete non-empty matched-roles list. -/
theorem limit_job_skills_single_policy_eq_witness :
    (["data engineer"] : List String) ≠ [] ∧
    (limit_job_skills ["data engineer"] ["sql", "python"] =
        limit_job_skills_single_policy ["sql", "python"] ∧
      List.Sorted (fun x y => pyStrLe x y = true)
        (limit_job_skills ["data engineer"] ["sql", "python"]) ∧
      ∀ (m : List String → List String → List String)
        (e : String → List String → List String)
        (ct : List String) (sp : List String → List String) (acs : List String)
        (text : String) (exps : List ExperienceItem),
        List.Sorted (fun x y => pyStrLe x y = true)
          (extract_cv_skills_analysis m e ct sp acs text exps).job_related_skills) :=
  ⟨by decide,
    limit_job_skills_single_policy_eq ["data engineer"] ["sql", "python"] (by decide)⟩

/-! ## Storage service: the partial update `update_parsed_cv`

From `storage_service.py` lines 246–270, the pure transformation applied to
the loaded CV JSON. The API layer builds `updates` with
`dict(exclude_unset=True, exclude_none=True)`, so an absent key and a
`None` value coincide: `none` models both. -/

/-- The `identity` JSON object; `none` models an absent key. -/
structure IdentityDict where
  full_name : Option String
  headline : Option String
  introduction : Option String
  email : Option String
  phone : Option String
  location : Option String
deriving DecidableEq

/-- The `skills_analysis` JSON object as stored. -/
structure SkillsDict where
  explicit_skills : Option (List String)
  related_roles : Option (List String)
  job_related_skills : Option (List String)
deriving DecidableEq

/-- The extraction metadata stamped by the orchestrator. -/
structure MetaDict where
  extraction_date : String
  extraction_time : String
  extraction_datetime : String
deriving DecidableEq

/-- One education entry (`education_agent.EducationItem`). -/
structure EducationItem where
  institution : Option String
  degree : Option String
  start_date : Option String
  end_date : Option String
  certifications : List String
  academic_projects : List String
deriving DecidableEq

/-- The stored CV JSON document. `identity` and `skills_analysis` are
optional because `update_parsed_cv` guards for their absence. -/
structure CVData where
  metadata : MetaDict
  identity : Option IdentityDict
  experience : List ExperienceItem
  education : List EducationItem
  projects : List String
  certifications : List String
  skills_analysis : Option SkillsDict
deriving DecidableEq

/-- `CVUpdateRequest` after the API layer's
`dict(exclude_unset=True, exclude_none=True)`. -/
structure CVUpdateRequest where
  full_name : Option String
  headline : Option String
  introduction : Option String
  email : Option String
  phone : Option String
  location : Option String
  selected_skills : Option (List String)
deriving DecidableEq

/-- The `if "identity" not in cv_data: cv_data["identity"] = {}` step. -/
def identityOf (cv : CVData) : IdentityDict :=
  match cv.identity with
  | some i => i
  | none => ⟨none, none, none, none, none, none⟩

/-- The `if "skills_analysis" not in cv_data: ... = {}` step. -/
def skillsOf (cv : CVData) : SkillsDict :=
  match cv.skills_analysis with
  | some s => s
  | none => ⟨none, none, none⟩

/-- `update_parsed_cv` (pure core): overwrite only identity keys provided
in `updates` (absent/None ones are skipped), then, only when
`selected_skills` is present and not `None`, replace
`skills_analysis.explicit_skills` with it. -/
def update_parsed_cv (cv_data : CVData) (updates : CVUpdateRequest) : CVData :=
  let ident := identityOf cv_data
  let ident' : IdentityDict :=
    { full_name :=
        match updates.full_name with
        | some v => some v
        | none => ident.full_name
      headline :=
        match updates.headline with
        | some v => some v
        | none => ident.headline
      introduction :=
        match updates.introduction with
        | some v => some v
        | none => ident.introduction
      email :=
        match updates.email with
        | some v => some v
        | none => ident.email
      phone :=
        match updates.phone with
        | some v => some v
        | none => ident.phone
      location :=
        match updates.location with
        | some v => some v
        | none => ident.location }
  let cv1 := { cv_data with identity := some ident' }
  match updates.selected_skills with
  | some l =>
    { cv1 with skills_analysis := some { skillsOf cv1 with explicit_skills := some l } }
  | none => cv1

/-- An enumeration of the six identity keys the update may touch. -/
inductive IdentityField where
  | full_name
  | headline
  | introduction
  | email
  | phone
  | location
deriving DecidableEq

/-- Project an identity field out of the identity object. -/
def idField : IdentityField → IdentityDict → Option String
  | .full_name, i => i.full_name
  | .headline, i => i.headline
  | .introduction, i => i.introduction
  | .email, i => i.email
  | .phone, i => i.phone
  | .location, i => i.location

/-- Project an identity field out of the update request. -/
def updField : IdentityField → CVUpdateRequest → Option String
  | .full_name, u => u.full_name
  | .headline, u => u.headline
  | .introduction, u => u.introduction
  | .email, u => u.email
  | .phone, u => u.phone
  | .location, u => u.location

theorem idField_update (cv : CVData) (u : CVUpdateRequest) (f : IdentityField) :
    idField f (identityOf (update_parsed_cv cv u)) =
      match updField f u with
      | some v => some v
      | none => idField f (identityOf cv) := by
  rcases cv with ⟨md, idopt, exp, edu, prj, crt, skopt⟩
  rcases u with ⟨u1, u2, u3, u4, u5, u6, u7⟩
  cases f <;> cases u7 <;> rfl

theorem skills_analysis_update (cv : CVData) (u : CVUpdateRequest) :
    (update_parsed_cv cv u).skills_analysis =
      match u.selected_skills with
      | some l => some { skillsOf cv with explicit_skills := some l }
      | none => cv.skills_analysis := by
  rcases cv with ⟨md, idopt, exp, edu, prj, crt, skopt⟩
  rcases u with ⟨u1, u2, u3, u4, u5, u6, u7⟩
  cases u7 <;> rfl

/-- C7: Update preservation (frame) — applying a partial update carrying
only a headline value yields a record whose `identity.headline` is that
value, whose other identity keys (absent/None in the update) keep their
previous values, and whose every other field — metadata, experience,
education, projects, certifications, skills_analysis — is unchanged;
`skills_analysis.explicit_skills` is replaced exactly when a skill list is
provided, and `job_related_skills` is never replaced. -/
theorem update_parsed_cv_headline_frame (cv : CVData) (i : IdentityDict) (x : String)
    (hid : cv.identity = some i) :
    (update_parsed_cv cv ⟨none, some x, none, none, none, none, none⟩).identity =
        some { i with headline := some x } ∧
    (update_parsed_cv cv ⟨none, some x, none, none, none, none, none⟩).experience =
        cv.experience ∧
    (update_parsed_cv cv ⟨none, some x, none, none, none, none, none⟩).metadata =
        cv.metadata ∧
    (update_parsed_cv cv ⟨none, some x, none, none, none, none, none⟩).education =
        cv.education ∧
    (update_parsed_cv cv ⟨none, some x, none, none, none, none, none⟩).projects =
        cv.projects ∧
    (update_parsed_cv cv ⟨none, some x, none, none, none, none, none⟩).certifications =
        cv.certifications ∧
    (update_parsed_cv cv ⟨none, some x, none, none, none, none, none⟩).skills_analysis =
        cv.skills_analysis ∧
    (∀ (u : CVUpdateRequest) (l : List String) (sk : SkillsDict),
      cv.skills_analysis = some sk → u.selected_skills = some l →
      (update_parsed_cv cv u).skills_analysis =
        some { sk with explicit_skills := some l }) := by
  rcases cv with ⟨md, idopt, exp, edu, prj, crt, skopt⟩
  simp only [] at hid
  subst hid
  refine ⟨rfl, rfl, rfl, rfl, rfl, rfl, rfl, ?_⟩
  rintro ⟨u1, u2, u3, u4, u5, u6, u7⟩ l sk hsk hl
  simp only [] at hsk hl
  subst hsk
  subst hl
  rfl

/-- A concrete stored identity used by the update witnesses. -/
def sampleIdentity : IdentityDict :=
  ⟨some "Jane Doe", some "Old headline", none, some "jane@x.io", some "123", some "MX"⟩

/-- A concrete stored CV record used by the update witnesses. -/
def sampleCV : CVData :=
  ⟨⟨"20260101", "120000", "2026-01-01T12:00:00"⟩,
    some sampleIdentity,
    [⟨some "ACME", some "Dev", ["shipped"], some "2020", some "2024"⟩],
    [⟨some "MIT", some "BSc", none, none, [], ["thesis"]⟩],
    ["projX"], ["certY"],
    some ⟨some ["python"], some ["data engineer"], some ["sql"]⟩⟩

/-- Witness for C7 at a concrete record and headline `"X"`. -/
theorem update_parsed_cv_headline_frame_witness :
    sampleCV.identity = some sampleIdentity ∧
    ((update_parsed_cv sampleCV ⟨none, some "X", none, none, none, none, none⟩).identity =
        some { sampleIdentity with headline := some "X" } ∧
      (update_parsed_cv sampleCV ⟨none, some "X", none, none, none, none, none⟩).experience =
        sampleCV.experience ∧
      (update_parsed_cv sampleCV ⟨none, some "X", none, none, none, none, none⟩).metadata =
        sampleCV.metadata ∧
      (update_parsed_cv sampleCV ⟨none, some "X", none, none, none, none, none⟩).education =
        sampleCV.education ∧
      (update_parsed_cv sampleCV ⟨none, some "X", none, none, none, none, none⟩).projects =
        sampleCV.projects ∧
      (update_parsed_cv sampleCV
          ⟨none, some "X", none, none, none, none, none⟩).certifications =
        sampleCV.certifications ∧
      (update_parsed_cv sampleCV
          ⟨none, some "X", none, none, none, none, none⟩).skills_analysis =
        sampleCV.skills_analysis ∧
      (∀ (u : CVUpdateRequest) (l : List String) (sk : SkillsDict),
        sampleCV.skills_analysis = some sk → u.selected_skills = some l →
        (update_parsed_cv sampleCV u).skills_analysis =
          some { sk with explicit_skills := some l })) :=
  ⟨rfl, update_parsed_cv_headline_frame sampleCV sampleIdentity "X" rfl⟩

/-- C10: Update asymmetry at the public update interface — a
`selected_skills` key present with the empty list replaces
`explicit_skills` with the empty list, a missing/None `selected_skills`
leaves `skills_analysis` unchanged, an identity key that is absent/None is
ignored (the field keeps its previous value), and an identity field that
held a string can never become null through this interface. -/
theorem update_parsed_cv_asymmetry :
    (∀ (cv : CVData) (sk : SkillsDict), cv.skills_analysis = some sk →
      (update_parsed_cv cv
          ⟨none, none, none, none, none, none, some []⟩).skills_analysis =
        some { sk with explicit_skills := some ([] : List String) }) ∧
    (∀ (cv : CVData) (u : CVUpdateRequest), u.selected_skills = none →
      (update_parsed_cv cv u).skills_analysis = cv.skills_analysis) ∧
    (∀ (cv : CVData) (u : CVUpdateRequest) (f : IdentityField),
      updField f u = none →
      idField f (identityOf (update_parsed_cv cv u)) = idField f (identityOf cv)) ∧
    (∀ (cv : CVData) (u : CVUpdateRequest) (f : IdentityField) (v : String),
      idField f (identityOf cv) = some v →
      idField f (identityOf (update_parsed_cv cv u)) ≠ none) := by
  refine ⟨?_, ?_, ?_, ?_⟩
  · intro cv sk hsk
    rw [skills_analysis_update]
    dsimp only
    unfold skillsOf
    rw [hsk]
  · intro cv u hu
    rw [skills_analysis_update, hu]
  · intro cv u f hf
    rw [idField_update, hf]
  · intro cv u f v hv
    rw [idField_update]
    cases hu : updField f u with
    | some w => simp
    | none => simp [hv]

/-- Witness for C10 at a concrete record: empty-list replacement, missing
key no-op, None identity key ignored, and non-nullability of a set field. -/
theorem update_parsed_cv_asymmetry_witness :
    ((update_parsed_cv sampleCV
        ⟨none, none, none, none, none, none, some []⟩).skills_analysis =
      some ⟨some [], some ["data engineer"], some ["sql"]⟩) ∧
    ((update_parsed_cv sampleCV
        ⟨none, none, none, none, none, none, none⟩).skills_analysis =
      sampleCV.skills_analysis) ∧
    (idField .phone (identityOf (update_parsed_cv sampleCV
        ⟨none, some "X", none, none, none, none, none⟩)) =
      idField .phone (identityOf sampleCV)) ∧
    (idField .headline (identityOf (update_parsed_cv sampleCV
        ⟨none, none, none, none, none, none, none⟩)) ≠ none) :=
  ⟨update_parsed_cv_asymmetry.1 sampleCV
      ⟨some ["python"], some ["data engineer"], some ["sql"]⟩ rfl,
    update_parsed_cv_asymmetry.2.1 sampleCV
      ⟨none, none, none, none, none, none, none⟩ rfl,
    update_parsed_cv_asymmetry.2.2.1 sampleCV
      ⟨none, some "X", none, none, none, none, none⟩ .phone rfl,
    update_parsed_cv_asymmetry.2.2.2 sampleCV
      ⟨none, none, none, none, none, none, none⟩ .headline "Old headline" rfl⟩

/-! ## PDF text extractor: exception dispatch (`pdf_extractor.py`)

`extract_text_from_pdf` wraps its body in a `try` with, in order:
`except ValueError` (line 141, re-raise), `except Exception` (line 144,
bbox/font fallback or re-raise), and a second `except Exception`
(line 187) holding the password-protected / corrupted classification.
Python selects the first matching clause, and every exception class
matches `Exception`, so the line-187 clause is dead. The protected body's
outcome and the `strict=False` retry results are parameters. -/

/-- The dynamic class of a raised Python exception, as far as the handlers
discriminate it; every one of these classes subclasses `Exception`. -/
inductive PyExcKind where
  | valueError
  | keyError
  | attributeError
  | otherError
deriving DecidableEq

/-- A raised Python exception: its class and its `str(e)` message. -/
structure PyExc where
  kind : PyExcKind
  msg : String
deriving DecidableEq

/-- The three except clauses, by source line. -/
inductive Handler where
  | h141
  | h144
  | h187
deriving DecidableEq

/-- Python handler resolution for the `try` of `extract_text_from_pdf`:
first matching clause wins. Line 141 catches `ValueError`; line 144
catches `Exception` — which every exception is — so line 187 is never
selected. -/
def dispatch_handler (e : PyExc) : Handler :=
  if e.kind = .valueError then .h141
  else if True then .h144
  else .h187

/-- What the caller of `extract_text_from_pdf` observes. -/
inductive ExtractResult where
  | ok (text : String)
  | reraised (e : PyExc)
  | formattingError
  | passwordError
  | corruptedError
deriving DecidableEq

/-- The line-144 guard:
`"bbox" in msg.lower() or "font" in msg.lower() or
isinstance(e, (KeyError, AttributeError))`. -/
def isFontBboxError (e : PyExc) : Bool :=
  pyInStr "bbox" (pyLower e.msg) || pyInStr "font" (pyLower e.msg) ||
    e.kind == .keyError || e.kind == .attributeError

/-- The except clauses applied to an exception `e` escaping the protected
block. `retryTexts` models the page texts the `strict=False` retry
recovers (`none` when the retry itself raises); any failure inside the
retry surfaces as the formatting-issues `ValueError` of line 180. -/
def handle_extraction_exc (e : PyExc) (retryTexts : Option (List String)) :
    ExtractResult :=
  match dispatch_handler e with
  | .h141 => .reraised e
  | .h144 =>
    if isFontBboxError e then
      match retryTexts with
      | some texts =>
        if texts = [] then .formattingError
        else .ok (String.intercalate "\n" texts)
      | none => .formattingError
    else .reraised e
  | .h187 =>
    if pyInStr "password" (pyLower e.msg) || pyInStr "encrypted" (pyLower e.msg) then
      .passwordError
    else .corruptedError

/-- The outcome of the protected block: it returns text, or raises (the
classified no-text `ValueError` of line 136 is one such `valueError`
exception). -/
inductive BodyOutcome where
  | returns (text : String)
  | raises (e : PyExc)
deriving DecidableEq

/-- `extract_text_from_pdf`, observed through its body outcome and the
handler chain. -/
def extract_text_from_pdf (body : BodyOutcome)
    (retryTexts : Option (List String)) : ExtractResult :=
  match body with
  | .returns t => .ok t
  | .raises e => handle_extraction_exc e retryTexts

/-- C8 (code bug): the password-protected classification of lines 187–202
is unreachable. The `except Exception` at line 144 precedes the one at
line 187, so an exception whose message indicates password protection
(here `"File is password protected"`, which the line-192 check would
match) is re-raised raw, and no input whatsoever makes the extractor
surface the classified password-protected failure. -/
theorem password_classification_unreachable :
    (∀ (e : PyExc), dispatch_handler e ≠ .h187) ∧
    (extract_text_from_pdf
        (.raises ⟨.otherError, "File is password protected"⟩) none =
      .reraised ⟨.otherError, "File is password protected"⟩) ∧
    (pyInStr "password" (pyLower "File is password protected") = true) ∧
    (∀ (body : BodyOutcome) (retryTexts : Option (List String)),
      extract_text_from_pdf body retryTexts ≠ .passwordError) := by
  refine ⟨?_, by decide, by decide, ?_⟩
  · intro e
    unfold dispatch_handler
    by_cases h : e.kind = PyExcKind.valueError <;> simp [h]
  · intro body retryTexts
    cases body with
    | returns t => simp [extract_text_from_pdf]
    | raises e =>
      show handle_extraction_exc e retryTexts ≠ .passwordError
      unfold handle_extraction_exc dispatch_handler
      by_cases h : e.kind = PyExcKind.valueError
      · simp [h]
      · simp only [h, if_false, if_true]
        by_cases hb : isFontBboxError e = true
        · simp only [hb, if_true]
          cases retryTexts with
          | none => simp
          | some texts =>
            by_cases ht : texts = [] <;> simp [ht]
        · simp [hb]

end TalentMatcher
